import Mathlib

/-!
Verification of the NeuroDecode streaming layer.

Part 1 embeds `neurodecode/stream_player/stream_player.py` (class `Streamer`):
the paced chunk-emission loop `Streamer.stream` and its helper `Streamer._sleep`.
Times are modelled as rationals, the dataset by its sample count, and the
external clock readings (`time.time()` / `time.perf_counter()` at pass resets)
by an oracle `clock : Nat → ℚ` giving the reading at the k-th reset.

Part 2 embeds `neurodecode/stream_receiver/stream_receiver.py` (class
`StreamReceiver`): discovery (`connect`), worker spawning (`acquire`), the
read API (`get_window`, `get_buffer`), `disconnect_stream`, `reset_buffer`
and the `is_connected` property.
-/

namespace NeuroDecode

/-- Configuration of a `Streamer`: `nSamples` is `raw._data.shape[1]`,
`chunkSize` is `self._chunk_size`, `srate` is `raw.info['sfreq']`. -/
structure Cfg where
  nSamples : Nat
  chunkSize : Nat
  srate : ℚ
deriving DecidableEq

/-- `t_chunk = self.chunk_size / self.get_sample_rate()` (stream_player.py line 221). -/
def tChunk (cfg : Cfg) : ℚ := (cfg.chunkSize : ℚ) / cfg.srate

/-- The absolute time `_sleep` waits for: `t_start + idx_chunk * t_chunk`
(stream_player.py lines 376 and 381; both the busy-wait target `t_sleep_until`
and the base of the sleep duration `t_wait`). -/
def sleepTarget (tStart : ℚ) (idxChunk : Nat) (tc : ℚ) : ℚ :=
  tStart + (idxChunk : ℚ) * tc

/-- Low-resolution branch of `_sleep` (line 381): the duration
`t_wait = t_start + idx_chunk * t_chunk - time.time()`; the code sleeps this
long when it exceeds 1 ms. -/
def lowResWait (tStart : ℚ) (idxChunk : Nat) (tc now : ℚ) : ℚ :=
  sleepTarget tStart idxChunk tc - now

/-- Number of samples in the chunk sliced at `idx_current = i * chunk_size`:
`raw._data[:, idx_current : idx_current + chunk_size]` (lines 233-235),
with Python slice clamping at the end of the data. -/
def chunkLen (cfg : Cfg) (i : Nat) : Nat :=
  min (i * cfg.chunkSize + cfg.chunkSize) cfg.nSamples - i * cfg.chunkSize

/-- `ceil(nSamples / chunkSize)`: the number of chunks one pass emits. -/
def numChunks (cfg : Cfg) : Nat :=
  (cfg.nSamples + cfg.chunkSize - 1) / cfg.chunkSize

/-- One emission event of `Streamer.stream`: the value of `played` and
`idx_chunk` when the chunk was emitted, the slice start `idx_current`, the
number of samples in the slice, the pass baseline `t_start` in effect, and
the scheduled emission time `_sleep` waited for. -/
structure ChunkEv where
  passIdx : Nat
  idx : Nat
  start : Nat
  len : Nat
  tStart : ℚ
  sched : ℚ
deriving DecidableEq

/-- The mutable state of the `while` loop in `Streamer.stream`
(lines 220-259): `idx_chunk`, `finished`, `t_start`, `played`, plus a
counter of resets performed so far, used to index the clock oracle. -/
structure LoopState where
  idxChunk : Nat
  finished : Bool
  tStart : ℚ
  played : Nat
  resets : Nat
deriving DecidableEq

/-- The test `if idx_current >= self.raw._data.shape[1] - self.chunk_size`
(line 238), in Python integer arithmetic (the difference may be negative,
hence `ℤ`). -/
def finishedTest (cfg : Cfg) (i : Nat) : Bool :=
  decide ((cfg.nSamples : ℤ) - (cfg.chunkSize : ℤ) ≤ ((i * cfg.chunkSize : Nat) : ℤ))

/-- One iteration of the body of the `while played <= repeat` loop
(lines 233-259): slice the chunk, set `finished` when the line-238 test
fires, record the `_sleep` target, increment `idx_chunk`, and on
`finished` reset `idx_chunk`, re-read the clock into `t_start` and
increment `played`. -/
def streamStep (cfg : Cfg) (clock : Nat → ℚ) (s : LoopState) :
    ChunkEv × LoopState :=
  let fin := finishedTest cfg s.idxChunk || s.finished
  let ev : ChunkEv :=
    ⟨s.played, s.idxChunk, s.idxChunk * cfg.chunkSize, chunkLen cfg s.idxChunk,
      s.tStart, sleepTarget s.tStart s.idxChunk (tChunk cfg)⟩
  if fin then
    (ev, ⟨0, false, clock s.resets, s.played + 1, s.resets + 1⟩)
  else
    (ev, ⟨s.idxChunk + 1, fin, s.tStart, s.played, s.resets⟩)

/-- The `while played <= repeat` loop (line 231), fuelled: each unit of fuel
allows one iteration; the loop exits as soon as `played > nRepeat`. -/
def streamRun (cfg : Cfg) (clock : Nat → ℚ) (nRepeat : Nat) :
    Nat → LoopState → List ChunkEv
  | 0, _ => []
  | fuel + 1, s =>
    if s.played ≤ nRepeat then
      let p := streamStep cfg clock s
      p.1 :: streamRun cfg clock nRepeat fuel p.2
    else []

/-- The full trace of `Streamer.stream(repeat = nRepeat)` starting from
`idx_chunk = 0`, `finished = False`, `t_start = t0`, `played = 0`
(lines 220-231), with enough fuel for every iteration the loop performs. -/
def streamTrace (cfg : Cfg) (clock : Nat → ℚ) (nRepeat : Nat) (t0 : ℚ) :
    List ChunkEv :=
  streamRun cfg clock nRepeat ((nRepeat + 1) * numChunks cfg)
    ⟨0, false, t0, 0, 0⟩

/-- The event emitted for chunk `j` of a pass whose baseline is `t` during
play `p`. -/
def mkEv (cfg : Cfg) (p j : Nat) (t : ℚ) : ChunkEv :=
  ⟨p, j, j * cfg.chunkSize, chunkLen cfg j, t, sleepTarget t j (tChunk cfg)⟩

/-- The chunks one pass emits: chunk indices `0, …, numChunks - 1`, all
anchored at the same baseline `t`. -/
def passEvents (cfg : Cfg) (p : Nat) (t : ℚ) : List ChunkEv :=
  (List.range (numChunks cfg)).map fun j => mkEv cfg p j t

/-- The concatenation of `m` passes starting at play counter `p`, reset
counter `r` and baseline `t`; each later pass is anchored at the clock
reading taken at the reset ending the previous pass. -/
def passesFrom (cfg : Cfg) (clock : Nat → ℚ) :
    Nat → Nat → Nat → ℚ → List ChunkEv
  | 0, _, _, _ => []
  | m + 1, p, r, t =>
      passEvents cfg p t ++ passesFrom cfg clock m (p + 1) (r + 1) (clock r)

section Arithmetic

/-- Characterisation of the ceiling division `numChunks`. -/
theorem numChunks_le_iff (L c m : Nat) (hc : 1 ≤ c) :
    (L + c - 1) / c ≤ m ↔ L ≤ m * c := by
  constructor
  · intro h
    by_contra hx
    push_neg at hx
    have h1 : (m + 1) * c ≤ L + c - 1 := by
      have : m * c + 1 ≤ L := hx
      have : (m + 1) * c ≤ L + c - 1 := by
        have hmc : (m + 1) * c = m * c + c := by ring
        omega
      exact this
    have h2 : m + 1 ≤ (L + c - 1) / c := (Nat.le_div_iff_mul_le (by omega)).mpr h1
    omega
  · intro h
    have h1 : L + c - 1 < (m + 1) * c := by
      have hmc : (m + 1) * c = m * c + c := by ring
      omega
    have h2 : (L + c - 1) / c < m + 1 := (Nat.div_lt_iff_lt_mul (by omega)).mpr h1
    omega

theorem numChunks_pos (cfg : Cfg) (hL : 1 ≤ cfg.nSamples)
    (hc : 1 ≤ cfg.chunkSize) : 1 ≤ numChunks cfg := by
  by_contra h
  push_neg at h
  have h0 : numChunks cfg ≤ 0 := by omega
  have := (numChunks_le_iff cfg.nSamples cfg.chunkSize 0 hc).mp h0
  omega

/-- The dataset fits in `numChunks` chunks. -/
theorem nSamples_le_numChunks_mul (cfg : Cfg) (hc : 1 ≤ cfg.chunkSize) :
    cfg.nSamples ≤ numChunks cfg * cfg.chunkSize :=
  (numChunks_le_iff cfg.nSamples cfg.chunkSize (numChunks cfg) hc).mp le_rfl

/-- One fewer chunk does not fit the dataset. -/
theorem numChunks_pred_mul_lt (cfg : Cfg) (hL : 1 ≤ cfg.nSamples)
    (hc : 1 ≤ cfg.chunkSize) :
    (numChunks cfg - 1) * cfg.chunkSize < cfg.nSamples := by
  by_contra h
  push_neg at h
  have h1 := (numChunks_le_iff cfg.nSamples cfg.chunkSize (numChunks cfg - 1) hc).mpr h
  have h2 := numChunks_pos cfg hL hc
  have hn : numChunks cfg = (cfg.nSamples + cfg.chunkSize - 1) / cfg.chunkSize := rfl
  omega

/-- The `finished` test at chunk index `i` fires exactly when `i` is the last
chunk index of the pass or beyond. -/
theorem finished_iff (cfg : Cfg) (hL : 1 ≤ cfg.nSamples)
    (hc : 1 ≤ cfg.chunkSize) (i : Nat) :
    ((cfg.nSamples : ℤ) - (cfg.chunkSize : ℤ) ≤ ((i * cfg.chunkSize : Nat) : ℤ))
      ↔ numChunks cfg ≤ i + 1 := by
  have hiff := numChunks_le_iff cfg.nSamples cfg.chunkSize (i + 1) hc
  constructor
  · intro h
    apply hiff.mpr
    have : (cfg.nSamples : ℤ) ≤ (i * cfg.chunkSize : Nat) + (cfg.chunkSize : ℤ) := by
      omega
    have hcast : ((i + 1) * cfg.chunkSize : Nat) = (i * cfg.chunkSize) + cfg.chunkSize := by
      ring
    omega
  · intro h
    have := hiff.mp h
    have hcast : (i + 1) * cfg.chunkSize = i * cfg.chunkSize + cfg.chunkSize := by
      ring
    omega

/-- A chunk that is not the last of its pass is full. -/
theorem chunkLen_full (cfg : Cfg) (hc : 1 ≤ cfg.chunkSize) (i : Nat)
    (h : i + 1 < numChunks cfg) : chunkLen cfg i = cfg.chunkSize := by
  have hnot : ¬ cfg.nSamples ≤ (i + 1) * cfg.chunkSize := by
    intro hle
    have h1 := (numChunks_le_iff cfg.nSamples cfg.chunkSize (i + 1) hc).mpr hle
    have hn : numChunks cfg = (cfg.nSamples + cfg.chunkSize - 1) / cfg.chunkSize := rfl
    omega
  have hlt : (i + 1) * cfg.chunkSize < cfg.nSamples := by omega
  have hcast : (i + 1) * cfg.chunkSize = i * cfg.chunkSize + cfg.chunkSize := by ring
  rw [hcast] at hlt
  unfold chunkLen
  rw [min_eq_left (le_of_lt hlt)]
  omega

/-- The last chunk of a pass holds the remaining `L - (n-1)·c` samples. -/
theorem chunkLen_last (cfg : Cfg) (hL : 1 ≤ cfg.nSamples)
    (hc : 1 ≤ cfg.chunkSize) :
    chunkLen cfg (numChunks cfg - 1) =
      cfg.nSamples - (numChunks cfg - 1) * cfg.chunkSize := by
  have h1 := nSamples_le_numChunks_mul cfg hc
  have h2 := numChunks_pred_mul_lt cfg hL hc
  have h3 := numChunks_pos cfg hL hc
  have hcast : (numChunks cfg - 1) * cfg.chunkSize + cfg.chunkSize
      = numChunks cfg * cfg.chunkSize := by
    have hn1 : numChunks cfg - 1 + 1 = numChunks cfg := by omega
    calc (numChunks cfg - 1) * cfg.chunkSize + cfg.chunkSize
        = (numChunks cfg - 1 + 1) * cfg.chunkSize := by ring
      _ = numChunks cfg * cfg.chunkSize := by rw [hn1]
  have hle : cfg.nSamples ≤ (numChunks cfg - 1) * cfg.chunkSize + cfg.chunkSize := by
    omega
  unfold chunkLen
  rw [min_eq_right hle]

/-- The length of the final chunk of a pass, as the spec states it:
`L mod c` when `c` does not divide `L`, and `c` when it does. -/
theorem chunkLen_last_mod (cfg : Cfg) (hL : 1 ≤ cfg.nSamples)
    (hc : 1 ≤ cfg.chunkSize) :
    chunkLen cfg (numChunks cfg - 1) =
      if cfg.chunkSize ∣ cfg.nSamples then cfg.chunkSize
      else cfg.nSamples % cfg.chunkSize := by
  have h1 := nSamples_le_numChunks_mul cfg hc
  have h2 := numChunks_pred_mul_lt cfg hL hc
  have hlast := chunkLen_last cfg hL hc
  set n := numChunks cfg with hn
  set r := cfg.nSamples - (n - 1) * cfg.chunkSize with hr
  have hdecomp : cfg.nSamples = (n - 1) * cfg.chunkSize + r := by omega
  have hrpos : 1 ≤ r := by omega
  have hrle : r ≤ cfg.chunkSize := by
    have : n * cfg.chunkSize = (n - 1) * cfg.chunkSize + cfg.chunkSize := by
      have h3 := numChunks_pos cfg hL hc
      have : n - 1 + 1 = n := by omega
      calc n * cfg.chunkSize = (n - 1 + 1) * cfg.chunkSize := by rw [this]
        _ = (n - 1) * cfg.chunkSize + cfg.chunkSize := by ring
    omega
  rcases eq_or_lt_of_le hrle with heq | hlt
  · have hdvd : cfg.chunkSize ∣ cfg.nSamples := by
      refine ⟨n, ?_⟩
      rw [hdecomp, heq]
      have h3 := numChunks_pos cfg hL hc
      have hn1 : n - 1 + 1 = n := by omega
      calc (n - 1) * cfg.chunkSize + cfg.chunkSize
          = (n - 1 + 1) * cfg.chunkSize := by ring
        _ = n * cfg.chunkSize := by rw [hn1]
        _ = cfg.chunkSize * n := by ring
    rw [hlast, if_pos hdvd]
    omega
  · have hmod : cfg.nSamples % cfg.chunkSize = r := by
      rw [hdecomp, Nat.add_comm, Nat.add_mul_mod_self_right]
      exact Nat.mod_eq_of_lt hlt
    have hndvd : ¬ cfg.chunkSize ∣ cfg.nSamples := by
      intro hdvd
      have hmodz : cfg.nSamples % cfg.chunkSize = 0 :=
        Nat.mod_eq_zero_of_dvd hdvd
      omega
    rw [hlast, if_neg hndvd]
    omega

end Arithmetic

section TraceStructure

theorem finishedTest_iff (cfg : Cfg) (hL : 1 ≤ cfg.nSamples)
    (hc : 1 ≤ cfg.chunkSize) (i : Nat) :
    finishedTest cfg i = true ↔ numChunks cfg ≤ i + 1 := by
  unfold finishedTest
  rw [decide_eq_true_iff]
  exact finished_iff cfg hL hc i

theorem streamRun_succ (cfg : Cfg) (clock : Nat → ℚ) (nR fuel : Nat)
    (s : LoopState) (hp : s.played ≤ nR) :
    streamRun cfg clock nR (fuel + 1) s =
      (streamStep cfg clock s).1 ::
        streamRun cfg clock nR fuel (streamStep cfg clock s).2 := by
  simp [streamRun, hp]

theorem streamRun_stop (cfg : Cfg) (clock : Nat → ℚ) (nR fuel : Nat)
    (s : LoopState) (hp : ¬ s.played ≤ nR) :
    streamRun cfg clock nR fuel s = [] := by
  cases fuel <;> simp [streamRun, hp]

theorem streamStep_not_last (cfg : Cfg) (clock : Nat → ℚ) (i : Nat) (t : ℚ)
    (p r : Nat) (h : finishedTest cfg i = false) :
    streamStep cfg clock ⟨i, false, t, p, r⟩ =
      (mkEv cfg p i t, ⟨i + 1, false, t, p, r⟩) := by
  simp [streamStep, h, mkEv]

theorem streamStep_last (cfg : Cfg) (clock : Nat → ℚ) (i : Nat) (t : ℚ)
    (p r : Nat) (h : finishedTest cfg i = true) :
    streamStep cfg clock ⟨i, false, t, p, r⟩ =
      (mkEv cfg p i t, ⟨0, false, clock r, p + 1, r + 1⟩) := by
  simp [streamStep, h, mkEv]

/-- Running the loop from chunk index `i` with `k + 1` chunks left in the
pass emits exactly those chunks, all anchored at the pass baseline `t`,
then continues at the reset state. -/
theorem streamRun_pass (cfg : Cfg) (clock : Nat → ℚ) (nR : Nat)
    (hL : 1 ≤ cfg.nSamples) (hc : 1 ≤ cfg.chunkSize) :
    ∀ (k i : Nat), i + (k + 1) = numChunks cfg →
    ∀ (rest : Nat) (t : ℚ) (p r : Nat), p ≤ nR →
    streamRun cfg clock nR (k + rest + 1) ⟨i, false, t, p, r⟩ =
      ((List.range' i (k + 1)).map fun j => mkEv cfg p j t) ++
        streamRun cfg clock nR rest ⟨0, false, clock r, p + 1, r + 1⟩ := by
  intro k
  induction k with
  | zero =>
    intro i hi rest t p r hp
    have hfin : finishedTest cfg i = true :=
      (finishedTest_iff cfg hL hc i).mpr (by omega)
    have hfuel : 0 + rest + 1 = rest + 1 := by omega
    rw [hfuel, streamRun_succ cfg clock nR rest _ hp,
      streamStep_last cfg clock i t p r hfin]
    simp [List.range'_one]
  | succ k ih =>
    intro i hi rest t p r hp
    have hfin : finishedTest cfg i = false := by
      refine Bool.eq_false_iff.mpr ?_
      rw [Ne, finishedTest_iff cfg hL hc i]
      omega
    have hfuel : k + 1 + rest + 1 = (k + rest + 1) + 1 := by omega
    rw [hfuel, streamRun_succ cfg clock nR (k + rest + 1) _ hp,
      streamStep_not_last cfg clock i t p r hfin]
    rw [ih (i + 1) (by omega) rest t p r hp]
    simp [List.range'_succ]

/-- Running the loop with `m` passes left produces the concatenation of
those passes. -/
theorem streamRun_passes (cfg : Cfg) (clock : Nat → ℚ) (nR : Nat)
    (hL : 1 ≤ cfg.nSamples) (hc : 1 ≤ cfg.chunkSize) :
    ∀ (m p r : Nat) (t : ℚ), p + m = nR + 1 →
    streamRun cfg clock nR (m * numChunks cfg) ⟨0, false, t, p, r⟩ =
      passesFrom cfg clock m p r t := by
  intro m
  induction m with
  | zero =>
    intro p r t hp
    simp [streamRun, passesFrom]
  | succ m ih =>
    intro p r t hp
    have hp' : p ≤ nR := by omega
    have hn := numChunks_pos cfg hL hc
    have hfuel : (m + 1) * numChunks cfg
        = (numChunks cfg - 1) + m * numChunks cfg + 1 := by
      have h1 : (m + 1) * numChunks cfg
          = numChunks cfg + m * numChunks cfg := by ring
      omega
    rw [hfuel,
      streamRun_pass cfg clock nR hL hc (numChunks cfg - 1) 0 (by omega)
        (m * numChunks cfg) t p r hp',
      ih (p + 1) (r + 1) (clock r) (by omega)]
    have hr : numChunks cfg - 1 + 1 = numChunks cfg := by omega
    rw [hr, ← List.range_eq_range']
    simp [passesFrom, passEvents]

/-- The full trace of `Streamer.stream(repeat = nR)` is the concatenation
of `nR + 1` passes: the pass at play counter `p` re-anchors its schedule
baseline at the clock reading taken at the reset that ended pass `p - 1`. -/
theorem streamTrace_eq (cfg : Cfg) (clock : Nat → ℚ) (nR : Nat) (t0 : ℚ)
    (hL : 1 ≤ cfg.nSamples) (hc : 1 ≤ cfg.chunkSize) :
    streamTrace cfg clock nR t0 = passesFrom cfg clock (nR + 1) 0 0 t0 :=
  streamRun_passes cfg clock nR hL hc (nR + 1) 0 0 t0 (by omega)

theorem passEvents_length (cfg : Cfg) (p : Nat) (t : ℚ) :
    (passEvents cfg p t).length = numChunks cfg := by
  simp [passEvents]

theorem passesFrom_length (cfg : Cfg) (clock : Nat → ℚ) :
    ∀ (m p r : Nat) (t : ℚ),
    (passesFrom cfg clock m p r t).length = m * numChunks cfg := by
  intro m
  induction m with
  | zero => intro p r t; simp [passesFrom]
  | succ m ih =>
    intro p r t
    simp [passesFrom, passEvents_length, ih]
    ring

theorem passEvents_getElem (cfg : Cfg) (p : Nat) (t : ℚ) (j : Nat)
    (hj : j < numChunks cfg) :
    (passEvents cfg p t)[j]? = some (mkEv cfg p j t) := by
  simp [passEvents, hj]

end TraceStructure

section StreamerClaims

/-- C1: within every playback pass, the emission time that `Streamer.stream`
schedules for chunk `i` — the `_sleep` target `t_start + idx_chunk * t_chunk`
— equals the pass baseline plus `i * (chunk_size / sample_rate)`: the trace
decomposes into passes, the `i`-th event of a pass has `idx = i` and is
anchored at the `t_start` recorded once at pass start, and its scheduled
time is `t_start + i * (chunk_size / sample_rate)`, a formula mentioning no
clock reading taken after the pass started, hence independent of processing
delay incurred by earlier chunks. -/
theorem streamer_c1_absolute_schedule (cfg : Cfg) (hL : 1 ≤ cfg.nSamples)
    (hc : 1 ≤ cfg.chunkSize) (clock : Nat → ℚ) (nR : Nat) (t0 : ℚ)
    (p i : Nat) (t : ℚ) (hi : i < numChunks cfg) :
    streamTrace cfg clock nR t0 = passesFrom cfg clock (nR + 1) 0 0 t0 ∧
    (passEvents cfg p t)[i]? = some (mkEv cfg p i t) ∧
    (mkEv cfg p i t).idx = i ∧
    (mkEv cfg p i t).tStart = t ∧
    (mkEv cfg p i t).sched = t + (i : ℚ) * ((cfg.chunkSize : ℚ) / cfg.srate) :=
  ⟨streamTrace_eq cfg clock nR t0 hL hc, passEvents_getElem cfg p t i hi,
    rfl, rfl, rfl⟩

theorem streamer_c1_absolute_schedule_witness :
    streamTrace ⟨1000, 100, 100⟩ (fun k => (k : ℚ)) 2 5 =
      passesFrom ⟨1000, 100, 100⟩ (fun k => (k : ℚ)) 3 0 0 5 ∧
    (passEvents ⟨1000, 100, 100⟩ 1 7)[4]? = some (mkEv ⟨1000, 100, 100⟩ 1 4 7) ∧
    (mkEv ⟨1000, 100, 100⟩ 1 4 7).idx = 4 ∧
    (mkEv ⟨1000, 100, 100⟩ 1 4 7).tStart = 7 ∧
    (mkEv ⟨1000, 100, 100⟩ 1 4 7).sched =
      7 + ((4 : Nat) : ℚ) * (((100 : Nat) : ℚ) / (100 : ℚ)) :=
  streamer_c1_absolute_schedule ⟨1000, 100, 100⟩ (by decide) (by decide)
    (fun k => (k : ℚ)) 2 5 1 4 7 (by decide)

/-- The C2 scenario: a 1000-sample dataset at 100 Hz with `chunk_size = 100`. -/
def cfgScenario : Cfg := ⟨1000, 100, 100⟩

/-- C2 counterexample: in the scenario of claim C2 (`repeat = 2`), the loop
`while played <= repeat` with `played` incremented at the end of each pass
performs three full passes, emitting 30 chunks, not 20. -/
theorem streamer_c2_counterexample :
    (streamTrace cfgScenario (fun k => ((k : ℚ) + 1) * 10) 2 0).length = 30 ∧
    (streamTrace cfgScenario (fun k => ((k : ℚ) + 1) * 10) 2 0).length ≠ 20 := by
  have h := streamTrace_eq cfgScenario (fun k => ((k : ℚ) + 1) * 10) 2 0
    (by decide) (by decide)
  rw [h, passesFrom_length]
  refine ⟨rfl, by decide⟩

/-- C2 (amended): for the 1000-sample / 100 Hz / `chunk_size = 100` scenario,
`Streamer.stream(repeat=2)` emits exactly 3 × 10 = 30 chunks before
returning — the loop runs while `played <= repeat`, so `repeat = 2` yields
three passes — resetting its schedule baseline (`idx_chunk = 0`,
`t_start = now`) exactly at the pass boundaries after chunks 10, 20 and 30:
chunks 0-9 are anchored at `t0`, chunks 10-19 at the clock reading taken at
the first reset, and chunks 20-29 at the reading taken at the second. -/
theorem streamer_c2_amended (clock : Nat → ℚ) (t0 : ℚ) :
    (streamTrace cfgScenario clock 2 t0).length = 30 ∧
    numChunks cfgScenario = 10 ∧
    streamTrace cfgScenario clock 2 t0 =
      passEvents cfgScenario 0 t0 ++
        (passEvents cfgScenario 1 (clock 0) ++
          passEvents cfgScenario 2 (clock 1)) := by
  have h := streamTrace_eq cfgScenario clock 2 t0 (by decide) (by decide)
  refine ⟨?_, rfl, ?_⟩
  · rw [h, passesFrom_length]
    rfl
  · rw [h]
    have e1 : passesFrom cfgScenario clock 3 0 0 t0
        = passEvents cfgScenario 0 t0 ++ (passEvents cfgScenario 1 (clock 0)
            ++ (passEvents cfgScenario 2 (clock 1) ++ ([] : List ChunkEv))) := rfl
    rw [e1, List.append_nil]

/-- C3: one playback pass (`repeat = 0`) over a dataset of `L ≥ 1` samples
with `chunk_size = c ≥ 1` emits exactly `⌈L/c⌉` chunks; the final chunk has
length `L mod c` when `c` does not divide `L` and `c` when it does; and a
dataset shorter than one chunk still emits exactly one chunk, of length
`L`. -/
theorem streamer_c3_chunks_per_pass (cfg : Cfg) (hL : 1 ≤ cfg.nSamples)
    (hc : 1 ≤ cfg.chunkSize) (clock : Nat → ℚ) (t0 : ℚ) :
    (streamTrace cfg clock 0 t0).length = cfg.nSamples ⌈/⌉ cfg.chunkSize ∧
    (streamTrace cfg clock 0 t0).getLast?
      = some (mkEv cfg 0 (numChunks cfg - 1) t0) ∧
    (mkEv cfg 0 (numChunks cfg - 1) t0).len
      = (if cfg.chunkSize ∣ cfg.nSamples then cfg.chunkSize
          else cfg.nSamples % cfg.chunkSize) ∧
    (cfg.nSamples < cfg.chunkSize →
      (streamTrace cfg clock 0 t0).length = 1 ∧
      (mkEv cfg 0 (numChunks cfg - 1) t0).len = cfg.nSamples) := by
  have h := streamTrace_eq cfg clock 0 t0 hL hc
  have e1 : passesFrom cfg clock 1 0 0 t0
      = passEvents cfg 0 t0 ++ ([] : List ChunkEv) := rfl
  have htr : streamTrace cfg clock 0 t0 = passEvents cfg 0 t0 := by
    rw [h, e1, List.append_nil]
  have hn := numChunks_pos cfg hL hc
  have hlen : (streamTrace cfg clock 0 t0).length = numChunks cfg := by
    rw [htr, passEvents_length]
  have hceil : cfg.nSamples ⌈/⌉ cfg.chunkSize = numChunks cfg := rfl
  refine ⟨by rw [hlen, hceil], ?_, ?_, ?_⟩
  · rw [htr, List.getLast?_eq_getElem?, passEvents_length]
    exact passEvents_getElem cfg 0 t0 (numChunks cfg - 1) (by omega)
  · show chunkLen cfg (numChunks cfg - 1) = _
    exact chunkLen_last_mod cfg hL hc
  · intro hshort
    have hone : numChunks cfg ≤ 1 := by
      have := (numChunks_le_iff cfg.nSamples cfg.chunkSize 1 hc).mpr (by omega)
      exact this
    have hn1 : numChunks cfg = 1 := by omega
    refine ⟨by rw [hlen, hn1], ?_⟩
    show chunkLen cfg (numChunks cfg - 1) = cfg.nSamples
    rw [hn1]
    unfold chunkLen
    have hmin : min (0 * cfg.chunkSize + cfg.chunkSize) cfg.nSamples
        = cfg.nSamples := by
      rw [min_eq_right]
      omega
    omega

theorem streamer_c3_chunks_per_pass_witness :
    (streamTrace ⟨7, 10, 5⟩ (fun k => (k : ℚ)) 0 3).length = 7 ⌈/⌉ 10 ∧
    (streamTrace ⟨7, 10, 5⟩ (fun k => (k : ℚ)) 0 3).getLast?
      = some (mkEv ⟨7, 10, 5⟩ 0 (numChunks ⟨7, 10, 5⟩ - 1) 3) ∧
    (mkEv ⟨7, 10, 5⟩ 0 (numChunks ⟨7, 10, 5⟩ - 1) 3).len
      = (if 10 ∣ 7 then 10 else 7 % 10) ∧
    (7 < 10 →
      (streamTrace ⟨7, 10, 5⟩ (fun k => (k : ℚ)) 0 3).length = 1 ∧
      (mkEv ⟨7, 10, 5⟩ 0 (numChunks ⟨7, 10, 5⟩ - 1) 3).len = 7) :=
  streamer_c3_chunks_per_pass ⟨7, 10, 5⟩ (by decide) (by decide)
    (fun k => (k : ℚ)) 3

end StreamerClaims

/-!
Embedding of `neurodecode/stream_receiver/stream_receiver.py`.

Python dicts (`self._streams`, `self._acquisition_threads`) are modelled as
insertion-ordered association lists with unique keys; `dictInsert` replaces
in place or appends, matching dict assignment, `dictRemove` models `del`,
`dictLookup` models subscripting (`none` standing for a raised `KeyError`).
-/

/-- Metadata of one LSL stream as seen during discovery:
`streamInfo.name()`, `streamInfo.type()` and `streamInfo.nominal_srate()`. -/
structure LSLStreamInfo where
  name : String
  typ : String
  nominalSrate : ℚ
deriving DecidableEq

/-- The `stream_name` argument of `StreamReceiver.connect`: `None`, a single
server name, or a list of names. -/
inductive NameFilter
  | noConstraint
  | single (s : String)
  | multi (l : List String)
deriving DecidableEq

/-- Kind of registered stream object: `StreamEEG` (dense buffer) or
`StreamMarker` (sparse buffer). -/
inductive StreamKind
  | eeg
  | marker
deriving DecidableEq

/-- Worker-thread slot in `self._acquisition_threads`: `None` before the
first `acquire()` for the stream, or a `Thread` (identified by an id) that
is alive or finished. -/
inductive WorkerSlot
  | pyNone
  | thread (id : Nat) (alive : Bool)
deriving DecidableEq

/-- `threads[stream] is not None and threads[stream].is_alive()`
(stream_receiver.py lines 154-155). -/
def slotRunning : WorkerSlot → Bool
  | WorkerSlot.thread _ true => true
  | _ => false

def dictLookup {α : Type} : List (String × α) → String → Option α
  | [], _ => none
  | p :: rest, k => if p.1 = k then some p.2 else dictLookup rest k

def dictInsert {α : Type} : List (String × α) → String → α → List (String × α)
  | [], k, v => [(k, v)]
  | p :: rest, k, v => if p.1 = k then (k, v) :: rest else p :: dictInsert rest k v

def dictRemove {α : Type} : List (String × α) → String → List (String × α)
  | [], _ => []
  | p :: rest, k => if p.1 = k then rest else p :: dictRemove rest k

section DictLemmas

variable {α : Type}

theorem dictLookup_insert_self (m : List (String × α)) (k : String) (v : α) :
    dictLookup (dictInsert m k v) k = some v := by
  induction m with
  | nil => simp [dictInsert, dictLookup]
  | cons p rest ih =>
    by_cases h : p.1 = k
    · simp [dictInsert, dictLookup, h]
    · simp [dictInsert, dictLookup, h, ih]

theorem dictLookup_insert_ne (m : List (String × α)) (k : String) (v : α)
    (n : String) (h : n ≠ k) :
    dictLookup (dictInsert m k v) n = dictLookup m n := by
  have hkn : ¬ k = n := fun hkn => h hkn.symm
  induction m with
  | nil => simp [dictInsert, dictLookup, hkn]
  | cons p rest ih =>
    by_cases hp : p.1 = k
    · have hpn : ¬ p.1 = n := by rw [hp]; exact hkn
      simp [dictInsert, dictLookup, hp, hpn, hkn]
    · by_cases hpn : p.1 = n
      · simp [dictInsert, dictLookup, hp, hpn, h]
      · simp [dictInsert, dictLookup, hp, hpn, ih]

theorem dictLookup_remove_self (m : List (String × α)) (k : String)
    (hnodup : (m.map (fun p => p.1)).Nodup) :
    dictLookup (dictRemove m k) k = none := by
  induction m with
  | nil => simp [dictRemove, dictLookup]
  | cons p rest ih =>
    simp only [List.map_cons, List.nodup_cons] at hnodup
    by_cases h : p.1 = k
    · have : ∀ q ∈ rest, ¬ q.1 = k := by
        intro q hq hqk
        have hqp : q.1 = p.1 := by rw [hqk, h]
        exact hnodup.1 (by
          rw [← hqp]
          exact List.mem_map_of_mem (fun r => r.1) hq)
      simp only [dictRemove, if_pos h]
      clear ih hnodup
      induction rest with
      | nil => simp [dictLookup]
      | cons q rest2 ih2 =>
        have hq : ¬ q.1 = k := this q (by simp)
        simp only [dictLookup, if_neg hq]
        exact ih2 (fun r hr => this r (by simp [hr]))
    · simp only [dictRemove, if_neg h, dictLookup, if_neg h]
      exact ih hnodup.2

theorem dictLookup_remove_ne (m : List (String × α)) (k n : String)
    (h : n ≠ k) :
    dictLookup (dictRemove m k) n = dictLookup m n := by
  have hkn : ¬ k = n := fun hkn => h hkn.symm
  induction m with
  | nil => simp [dictRemove]
  | cons p rest ih =>
    by_cases hp : p.1 = k
    · have hpn : ¬ p.1 = n := by rw [hp]; exact hkn
      simp [dictRemove, dictLookup, hp, hpn, hkn]
    · by_cases hpn : p.1 = n
      · simp [dictRemove, dictLookup, hp, hpn, h]
      · simp [dictRemove, dictLookup, hp, hpn, ih]

theorem dictLookup_insert_isSome (m : List (String × α)) (k : String) (v : α)
    (n : String) (h : (dictLookup m n).isSome = true) :
    (dictLookup (dictInsert m k v) n).isSome = true := by
  by_cases hn : n = k
  · rw [hn, dictLookup_insert_self]; rfl
  · rw [dictLookup_insert_ne m k v n hn]; exact h

end DictLemmas

section Connect

/-- Python `str.lower()` as applied to LSL type strings (`'EEG'.lower()`),
modelled per character; kernel-reducible, unlike `String.toLower`. -/
def pyLower (s : String) : String := String.mk (s.data.map Char.toLower)

/-- The four `continue` filters of the discovery `for` loop
(stream_receiver.py lines 75-93), in order: (a) `eeg_only` and non-EEG type,
(b) `stream_name` is a string and the name differs, (c) `stream_name` is a
list/tuple and the name is not in it, (d) the reserved name
`StreamRecorderInfo`. A candidate passes when none fires. -/
def passesFilters (eegOnly : Bool) (nf : NameFilter) (info : LSLStreamInfo) :
    Bool :=
  (!(eegOnly && !(pyLower info.typ == "eeg"))) &&
  (match nf with
    | NameFilter.single s => info.name == s
    | NameFilter.multi l => l.contains info.name
    | NameFilter.noConstraint => true) &&
  (info.name != "StreamRecorderInfo")

/-- Registration of a passing candidate (lines 95-102): EEG-typed streams
become `StreamEEG` (dense buffer); otherwise streams with nominal rate 0
become `StreamMarker` (sparse buffer); otherwise nothing is registered. -/
def registerStream (info : LSLStreamInfo) : Option StreamKind :=
  if pyLower info.typ = "eeg" then some StreamKind.eeg
  else if info.nominalSrate = 0 then some StreamKind.marker
  else none

/-- One candidate of the `for streamInfo in streamInfos` loop (lines 73-104):
skipped candidates leave the accumulator unchanged; a passing candidate is
registered according to `registerStream` and sets `server_found = True`
(line 104) whether or not anything was registered. -/
def scanStep (eegOnly : Bool) (nf : NameFilter)
    (acc : List (String × StreamKind) × Bool) (info : LSLStreamInfo) :
    List (String × StreamKind) × Bool :=
  if passesFilters eegOnly nf info then
    (match registerStream info with
      | some kind => dictInsert acc.1 info.name kind
      | none => acc.1,
     true)
  else acc

/-- One full scan of the network (`pylsl.resolve_streams()` returning
`infos`, then the `for` loop). -/
def scanOnce (eegOnly : Bool) (nf : NameFilter)
    (acc : List (String × StreamKind) × Bool) (infos : List LSLStreamInfo) :
    List (String × StreamKind) × Bool :=
  infos.foldl (scanStep eegOnly nf) acc

/-- The `while not server_found` loop of `connect` (lines 61-105), fuelled;
`scan k` is the list of streams `pylsl.resolve_streams()` returns on the
k-th iteration. Returns the stream map when the loop exits. -/
def connectLoop (eegOnly : Bool) (nf : NameFilter)
    (scan : Nat → List LSLStreamInfo) :
    Nat → Nat → List (String × StreamKind) × Bool →
      Option (List (String × StreamKind))
  | 0, _, _ => none
  | fuel + 1, k, acc =>
    if acc.2 then some acc.1
    else connectLoop eegOnly nf scan fuel (k + 1)
      (scanOnce eegOnly nf acc (scan k))

/-- `StreamReceiver.connect` (lines 57-105): start from a fresh empty
stream map and `server_found = False`, loop until a scan sets
`server_found`. -/
def connect (eegOnly : Bool) (nf : NameFilter)
    (scan : Nat → List LSLStreamInfo) (fuel : Nat) :
    Option (List (String × StreamKind)) :=
  connectLoop eegOnly nf scan fuel 0 ([], false)

theorem scanOnce_found_sticky (eegOnly : Bool) (nf : NameFilter) :
    ∀ (infos : List LSLStreamInfo) (m : List (String × StreamKind)),
    (scanOnce eegOnly nf (m, true) infos).2 = true := by
  intro infos
  induction infos with
  | nil => intro m; rfl
  | cons info rest ih =>
    intro m
    show (scanOnce eegOnly nf (scanStep eegOnly nf (m, true) info) rest).2 = true
    by_cases h : passesFilters eegOnly nf info = true
    · simp only [scanStep, if_pos h]
      exact ih _
    · simp only [scanStep, if_neg h]
      exact ih m

/-- `server_found` after one scan is exactly "some candidate passed all four
filters" — independently of whether any candidate was registered. -/
theorem scanOnce_found_iff (eegOnly : Bool) (nf : NameFilter) :
    ∀ (infos : List LSLStreamInfo) (m : List (String × StreamKind)),
    (scanOnce eegOnly nf (m, false) infos).2
      = infos.any (passesFilters eegOnly nf) := by
  intro infos
  induction infos with
  | nil => intro m; rfl
  | cons info rest ih =>
    intro m
    show (scanOnce eegOnly nf (scanStep eegOnly nf (m, false) info) rest).2 = _
    by_cases h : passesFilters eegOnly nf info = true
    · simp only [scanStep, if_pos h, List.any_cons, h, Bool.true_or]
      exact scanOnce_found_sticky eegOnly nf rest _
    · have hf : passesFilters eegOnly nf info = false :=
        Bool.eq_false_iff.mpr h
      simp only [scanStep, if_neg h, List.any_cons, hf, Bool.false_or]
      exact ih m

/-- If the discovery loop ever returns after starting in the
not-yet-found state, some scan contained a candidate passing all four
filters. -/
theorem connectLoop_exit_has_pass (eegOnly : Bool) (nf : NameFilter)
    (scan : Nat → List LSLStreamInfo) :
    ∀ (fuel k : Nat) (m0 m : List (String × StreamKind)),
    connectLoop eegOnly nf scan fuel k (m0, false) = some m →
    ∃ j, (scan (k + j)).any (passesFilters eegOnly nf) = true := by
  intro fuel
  induction fuel with
  | zero => intro k m0 m h; exact absurd h (by simp [connectLoop])
  | succ fuel ih =>
    intro k m0 m h
    have h2 : connectLoop eegOnly nf scan fuel (k + 1)
        (scanOnce eegOnly nf (m0, false) (scan k)) = some m := h
    cases hsf : (scanOnce eegOnly nf (m0, false) (scan k)).2 with
    | true =>
      refine ⟨0, ?_⟩
      rw [Nat.add_zero, ← scanOnce_found_iff eegOnly nf (scan k) m0]
      exact hsf
    | false =>
      have hpair : scanOnce eegOnly nf (m0, false) (scan k)
          = ((scanOnce eegOnly nf (m0, false) (scan k)).1, false) :=
        Prod.ext rfl hsf
      rw [hpair] at h2
      obtain ⟨j, hj⟩ := ih (k + 1) _ m h2
      refine ⟨j + 1, ?_⟩
      rw [show k + (j + 1) = k + 1 + j by omega]
      exact hj


/-- Characterisation of what `connect` registers: a dense (`StreamEEG`)
buffer exactly for EEG-typed candidates, a sparse (`StreamMarker`) buffer
exactly for non-EEG candidates with nominal rate 0, and nothing for non-EEG
candidates with a nonzero rate. -/
theorem registerStream_cases (info : LSLStreamInfo) :
    (registerStream info = some StreamKind.eeg ↔ pyLower info.typ = "eeg") ∧
    (registerStream info = some StreamKind.marker ↔
      pyLower info.typ ≠ "eeg" ∧ info.nominalSrate = 0) ∧
    (registerStream info = none ↔
      pyLower info.typ ≠ "eeg" ∧ info.nominalSrate ≠ 0) := by
  unfold registerStream
  by_cases h1 : pyLower info.typ = "eeg"
  · simp [h1]
  · by_cases h2 : info.nominalSrate = 0 <;> simp [h1, h2]

/-- A stream that passes every filter but is neither EEG-typed nor
zero-rate: `connect` accepts it as a found server yet registers nothing. -/
def gazeInfo : LSLStreamInfo := ⟨"GazeStream", "Gaze", 60⟩

/-- C4 counterexample: with a single visible source of non-EEG type and
nonzero rate (`eeg_only = False`, no name filter), the discovery loop
terminates — the candidate passed all four filters, which sets
`server_found` (line 104) — yet nothing was registered, so `connect`
returns with an empty stream map, contradicting the claim that the loop
terminates only once at least one source has been registered and that the
stream map is non-empty whenever `connect` returns. -/
theorem receiver_c4_counterexample :
    connect false NameFilter.noConstraint (fun _ => [gazeInfo]) 2 = some [] ∧
    passesFilters false NameFilter.noConstraint gazeInfo = true ∧
    registerStream gazeInfo = none := by
  refine ⟨by decide, by decide, by decide⟩

/-- C4 (amended): the discovery loop terminates once at least one candidate
has passed all four filters (eeg_only, single-name, name-set, reserved
internal name), whether or not it was registered; a passing candidate is
registered with a dense buffer iff its type is EEG, with a sparse buffer
iff it is non-EEG with nominal rate 0, and not at all when it is non-EEG
with nonzero rate — so `connect` can return with an empty stream map. -/
theorem receiver_c4_amended (eegOnly : Bool) (nf : NameFilter)
    (scan : Nat → List LSLStreamInfo) (fuel k : Nat)
    (m0 m : List (String × StreamKind)) (infos : List LSLStreamInfo)
    (info : LSLStreamInfo)
    (h : connectLoop eegOnly nf scan fuel k (m0, false) = some m) :
    (∃ j, (scan (k + j)).any (passesFilters eegOnly nf) = true) ∧
    (scanOnce eegOnly nf (m0, false) infos).2
      = infos.any (passesFilters eegOnly nf) ∧
    (registerStream info = some StreamKind.eeg ↔ pyLower info.typ = "eeg") ∧
    (registerStream info = some StreamKind.marker ↔
      pyLower info.typ ≠ "eeg" ∧ info.nominalSrate = 0) ∧
    (registerStream info = none ↔
      pyLower info.typ ≠ "eeg" ∧ info.nominalSrate ≠ 0) :=
  ⟨connectLoop_exit_has_pass eegOnly nf scan fuel k m0 m h,
    scanOnce_found_iff eegOnly nf infos m0,
    (registerStream_cases info).1,
    (registerStream_cases info).2.1,
    (registerStream_cases info).2.2⟩

theorem receiver_c4_amended_witness :
    (∃ j, ((fun (_ : Nat) => [gazeInfo]) (0 + j)).any
      (passesFilters false NameFilter.noConstraint) = true) ∧
    (scanOnce false NameFilter.noConstraint ([], false) [gazeInfo]).2
      = [gazeInfo].any (passesFilters false NameFilter.noConstraint) ∧
    (registerStream gazeInfo = some StreamKind.eeg ↔
      pyLower gazeInfo.typ = "eeg") ∧
    (registerStream gazeInfo = some StreamKind.marker ↔
      pyLower gazeInfo.typ ≠ "eeg" ∧ gazeInfo.nominalSrate = 0) ∧
    (registerStream gazeInfo = none ↔
      pyLower gazeInfo.typ ≠ "eeg" ∧ gazeInfo.nominalSrate ≠ 0) :=
  receiver_c4_amended false NameFilter.noConstraint (fun _ => [gazeInfo])
    2 0 [] [] [gazeInfo] gazeInfo (by decide)

end Connect

section Acquire

/-- Per-stream data held by a registered stream object: its channel list
(`ch_list`), its buffer contents (`buffer.data`, `buffer.timestamps`) and
the window size in samples (`buffer.winsize`). -/
structure StreamData where
  chList : List String
  bufData : List (List ℚ)
  bufTimestamps : List ℚ
  winsize : Nat
deriving DecidableEq

/-- The engine state a connected `StreamReceiver` carries: `self._streams`
and `self._acquisition_threads`. -/
structure RcvState where
  streams : List (String × StreamData)
  threads : List (String × WorkerSlot)
deriving DecidableEq

/-- The `for stream in self._streams` loop of `acquire` (lines 153-161):
for each stream, if its slot holds a live thread, skip; otherwise start a
new thread (`fresh` supplies the new thread's identity) and store it in the
slot. A missing slot key is a `KeyError` (`none`). -/
def acquireFold (fresh : String → Nat) :
    List String → List (String × WorkerSlot) →
      Option (List (String × WorkerSlot))
  | [], threads => some threads
  | name :: rest, threads =>
    match dictLookup threads name with
    | none => none
    | some s =>
      if slotRunning s then acquireFold fresh rest threads
      else acquireFold fresh rest
        (dictInsert threads name (WorkerSlot.thread (fresh name) true))

/-- `StreamReceiver.acquire` (lines 149-161). -/
def acquire (st : RcvState) (fresh : String → Nat) :
    Option (List (String × WorkerSlot)) :=
  acquireFold fresh (st.streams.map (fun p => p.1)) st.threads

theorem acquireFold_cons_running (fresh : String → Nat) (name : String)
    (rest : List String) (threads : List (String × WorkerSlot))
    (s : WorkerSlot) (hs : dictLookup threads name = some s)
    (hrun : slotRunning s = true) :
    acquireFold fresh (name :: rest) threads =
      acquireFold fresh rest threads := by
  simp only [acquireFold, hs, hrun, if_true]

theorem acquireFold_cons_spawn (fresh : String → Nat) (name : String)
    (rest : List String) (threads : List (String × WorkerSlot))
    (s : WorkerSlot) (hs : dictLookup threads name = some s)
    (hrun : slotRunning s = false) :
    acquireFold fresh (name :: rest) threads =
      acquireFold fresh rest
        (dictInsert threads name (WorkerSlot.thread (fresh name) true)) := by
  simp only [acquireFold, hs, hrun, Bool.false_eq_true, if_false]

theorem acquireFold_preserves (fresh : String → Nat) :
    ∀ (names : List String) (threads threads2 : List (String × WorkerSlot))
      (n : String),
    acquireFold fresh names threads = some threads2 → n ∉ names →
    dictLookup threads2 n = dictLookup threads n := by
  intro names
  induction names with
  | nil =>
    intro threads threads2 n h hn
    cases h
    rfl
  | cons name rest ih =>
    intro threads threads2 n h hn
    have hne : n ≠ name := fun he => hn (he ▸ List.mem_cons_self name rest)
    have hnr : n ∉ rest := fun hr => hn (List.mem_cons_of_mem name hr)
    cases hs : dictLookup threads name with
    | none =>
      simp only [acquireFold, hs] at h
      exact Option.noConfusion h
    | some s =>
      cases hrun : slotRunning s with
      | true =>
        rw [acquireFold_cons_running fresh name rest threads s hs hrun] at h
        exact ih threads threads2 n h hnr
      | false =>
        rw [acquireFold_cons_spawn fresh name rest threads s hs hrun] at h
        rw [ih _ threads2 n h hnr]
        exact dictLookup_insert_ne threads name _ n hne

theorem acquireFold_total (fresh : String → Nat) :
    ∀ (names : List String) (threads : List (String × WorkerSlot)),
    (∀ n ∈ names, (dictLookup threads n).isSome = true) →
    ∃ threads2, acquireFold fresh names threads = some threads2 := by
  intro names
  induction names with
  | nil => intro threads _; exact ⟨threads, rfl⟩
  | cons name rest ih =>
    intro threads hall
    cases hs : dictLookup threads name with
    | none =>
      have := hall name (List.mem_cons_self name rest)
      rw [hs] at this
      cases this
    | some s =>
      cases hrun : slotRunning s with
      | true =>
        obtain ⟨t2, ht2⟩ := ih threads
          (fun n hn => hall n (List.mem_cons_of_mem name hn))
        exact ⟨t2, by
          rw [acquireFold_cons_running fresh name rest threads s hs hrun]
          exact ht2⟩
      | false =>
        obtain ⟨t2, ht2⟩ := ih
          (dictInsert threads name (WorkerSlot.thread (fresh name) true))
          (fun n hn => dictLookup_insert_isSome threads name _ n
            (hall n (List.mem_cons_of_mem name hn)))
        exact ⟨t2, by
          rw [acquireFold_cons_spawn fresh name rest threads s hs hrun]
          exact ht2⟩

theorem acquireFold_spec (fresh : String → Nat) :
    ∀ (names : List String) (threads : List (String × WorkerSlot))
      (name : String) (s : WorkerSlot),
    names.Nodup →
    (∀ n ∈ names, (dictLookup threads n).isSome = true) →
    name ∈ names → dictLookup threads name = some s →
    ∃ threads2, acquireFold fresh names threads = some threads2 ∧
      dictLookup threads2 name =
        some (if slotRunning s then s
          else WorkerSlot.thread (fresh name) true) := by
  intro names
  induction names with
  | nil => intro _ _ _ _ _ hmem; cases hmem
  | cons nm rest ih =>
    intro threads name s hnodup hall hmem hs
    rw [List.nodup_cons] at hnodup
    by_cases heq : nm = name
    · subst heq
      cases hrun : slotRunning s with
      | true =>
        obtain ⟨t2, ht2⟩ := acquireFold_total fresh rest threads
          (fun n hn => hall n (List.mem_cons_of_mem nm hn))
        refine ⟨t2, ?_, ?_⟩
        · rw [acquireFold_cons_running fresh nm rest threads s hs hrun]
          exact ht2
        · rw [acquireFold_preserves fresh rest threads t2 nm ht2 hnodup.1,
            hs, if_pos rfl]
      | false =>
        obtain ⟨t2, ht2⟩ := acquireFold_total fresh rest
          (dictInsert threads nm (WorkerSlot.thread (fresh nm) true))
          (fun n hn => dictLookup_insert_isSome threads nm _ n
            (hall n (List.mem_cons_of_mem nm hn)))
        refine ⟨t2, ?_, ?_⟩
        · rw [acquireFold_cons_spawn fresh nm rest threads s hs hrun]
          exact ht2
        · rw [acquireFold_preserves fresh rest _ t2 nm ht2 hnodup.1,
            dictLookup_insert_self, if_neg Bool.false_ne_true]
    · have hmem2 : name ∈ rest := by
        cases hmem with
        | head => exact absurd rfl heq
        | tail _ h => exact h
      cases hs0 : dictLookup threads nm with
      | none =>
        have := hall nm (List.mem_cons_self nm rest)
        rw [hs0] at this
        cases this
      | some s0 =>
        cases hrun0 : slotRunning s0 with
        | true =>
          rw [acquireFold_cons_running fresh nm rest threads s0 hs0 hrun0]
          exact ih threads name s hnodup.2
            (fun n hn => hall n (List.mem_cons_of_mem nm hn)) hmem2 hs
        | false =>
          rw [acquireFold_cons_spawn fresh nm rest threads s0 hs0 hrun0]
          have hne : name ≠ nm := fun he => heq he.symm
          exact ih _ name s hnodup.2
            (fun n hn => dictLookup_insert_isSome threads nm _ n
              (hall n (List.mem_cons_of_mem nm hn)))
            hmem2
            (by rw [dictLookup_insert_ne threads nm _ name hne]; exact hs)

/-- C5: for every connected stream, `acquire` spawns a new worker (a fresh
thread, stored alive in the stream's slot) if and only if no worker for
that stream is currently running — the slot is `None` or holds a finished
thread; if the previous worker is still alive the call leaves the slot
untouched, so at most one in-flight pull per stream ever exists. -/
theorem receiver_c5_one_pull_per_stream (st : RcvState)
    (fresh : String → Nat) (name : String) (s : WorkerSlot)
    (hnodup : (st.streams.map (fun p => p.1)).Nodup)
    (hall : ∀ n ∈ st.streams.map (fun p => p.1),
      (dictLookup st.threads n).isSome = true)
    (hmem : name ∈ st.streams.map (fun p => p.1))
    (hs : dictLookup st.threads name = some s) :
    ∃ threads2, acquire st fresh = some threads2 ∧
      (slotRunning s = true → dictLookup threads2 name = some s) ∧
      (slotRunning s = false →
        dictLookup threads2 name =
          some (WorkerSlot.thread (fresh name) true)) := by
  obtain ⟨t2, ht2, hlook⟩ := acquireFold_spec fresh
    (st.streams.map (fun p => p.1)) st.threads name s hnodup hall hmem hs
  refine ⟨t2, ht2, ?_, ?_⟩
  · intro hrun; rw [hlook, if_pos hrun]
  · intro hrun; rw [hlook, if_neg (by rw [hrun]; exact Bool.false_ne_true)]

theorem receiver_c5_one_pull_per_stream_witness :
    ∃ threads2,
      acquire ⟨[("AMP1", ⟨["Fz"], [], [], 1⟩), ("AMP2", ⟨["Cz"], [], [], 1⟩)],
          [("AMP1", WorkerSlot.pyNone), ("AMP2", WorkerSlot.thread 0 true)]⟩
        (fun _ => 7) = some threads2 ∧
      (slotRunning WorkerSlot.pyNone = true →
        dictLookup threads2 "AMP1" = some WorkerSlot.pyNone) ∧
      (slotRunning WorkerSlot.pyNone = false →
        dictLookup threads2 "AMP1" = some (WorkerSlot.thread 7 true)) :=
  receiver_c5_one_pull_per_stream
    ⟨[("AMP1", ⟨["Fz"], [], [], 1⟩), ("AMP2", ⟨["Cz"], [], [], 1⟩)],
      [("AMP1", WorkerSlot.pyNone), ("AMP2", WorkerSlot.thread 0 true)]⟩
    (fun _ => 7) "AMP1" WorkerSlot.pyNone
    (by decide) (by decide) (by decide) (by decide)

end Acquire

section ReadAPI

/-- The shared `stream_name` resolution prelude of `get_window` (lines
180-185), `get_buffer` (lines 229-234), `disconnect_stream` (lines 135-140)
and `reset_buffer` (lines 261-266): when exactly one stream is connected its
name unconditionally replaces the argument; otherwise a missing argument is
a `ValueError`. -/
def resolveStreamName (streams : List (String × StreamData))
    (stream_name : Option String) : Except String String :=
  match streams, stream_name with
  | [s], _ => Except.ok s.1
  | _, some n => Except.ok n
  | _, none => Except.error "ValueError"

/-- Python's `xs[-w:]` on a list. -/
def takeLastPy {α : Type} (w : Nat) (xs : List α) : List α :=
  if w = 0 then xs else xs.drop (xs.length - w)

/-- What a read returns: `np.empty((0, nCols))` with an empty timestamp
array, or the sample rows with their timestamps. -/
inductive PullOutput
  | emptyResult (nCols : Nat)
  | samples (rows : List (List ℚ)) (ts : List ℚ)
deriving DecidableEq

/-- `StreamReceiver.get_window` (lines 163-210). The `Bool` records whether
the "`.acquire()` must be called before" warning was emitted. An
`Except.error` models an uncaught exception; the `AttributeError` from
joining a `None` slot is caught (lines 189-194) and yields the empty
result. -/
def get_window (st : RcvState) (stream_name : Option String) :
    Except String (PullOutput × Bool) :=
  match resolveStreamName st.streams stream_name with
  | Except.error e => Except.error e
  | Except.ok name =>
    match dictLookup st.streams name with
    | none => Except.error "KeyError"
    | some sd =>
      match dictLookup st.threads name with
      | none => Except.error "KeyError"
      | some WorkerSlot.pyNone =>
        Except.ok (PullOutput.emptyResult sd.chList.length, true)
      | some (WorkerSlot.thread _ _) =>
        let window := takeLastPy sd.winsize sd.bufData
        let ts := takeLastPy sd.winsize sd.bufTimestamps
        if 0 < ts.length then Except.ok (PullOutput.samples window ts, false)
        else Except.ok (PullOutput.emptyResult sd.chList.length, false)

/-- `StreamReceiver.get_buffer` (lines 212-249): same resolution and
join-barrier as `get_window` but returns the whole retained history. -/
def get_buffer (st : RcvState) (stream_name : Option String) :
    Except String (PullOutput × Bool) :=
  match resolveStreamName st.streams stream_name with
  | Except.error e => Except.error e
  | Except.ok name =>
    match dictLookup st.streams name with
    | none => Except.error "KeyError"
    | some sd =>
      match dictLookup st.threads name with
      | none => Except.error "KeyError"
      | some WorkerSlot.pyNone =>
        Except.ok (PullOutput.emptyResult sd.chList.length, true)
      | some (WorkerSlot.thread _ _) =>
        if 0 < sd.bufTimestamps.length then
          Except.ok (PullOutput.samples sd.bufData sd.bufTimestamps, false)
        else Except.ok (PullOutput.emptyResult sd.chList.length, false)

/-- `StreamReceiver.disconnect_stream` (lines 125-147): resolve the name,
close the inlet and delete the stream entry; a `KeyError` on a nonexistent
name is caught and logged, leaving the state unchanged. The `Bool` records
whether an inlet was actually closed. `self._acquisition_threads` is not
touched. -/
def disconnect_stream (st : RcvState) (stream_name : Option String) :
    Except String (RcvState × Bool) :=
  match resolveStreamName st.streams stream_name with
  | Except.error e => Except.error e
  | Except.ok name =>
    match dictLookup st.streams name with
    | none => Except.ok (st, false)
    | some _ => Except.ok (⟨dictRemove st.streams name, st.threads⟩, true)

/-- `StreamReceiver.reset_buffer` (lines 251-268): resolve the name and
clear the stream's buffer. A nonexistent explicit name raises `KeyError`
(line 268, uncaught). The clearing itself (`buffer.reset_buffer()`, in
`_stream.py` which is not under src/) is modelled from the spec: "clears
retained samples without closing the underlying connection". -/
def reset_buffer (st : RcvState) (stream_name : Option String) :
    Except String RcvState :=
  match resolveStreamName st.streams stream_name with
  | Except.error e => Except.error e
  | Except.ok name =>
    match dictLookup st.streams name with
    | none => Except.error "KeyError"
    | some sd =>
      Except.ok ⟨dictInsert st.streams name ⟨sd.chList, [], [], sd.winsize⟩,
        st.threads⟩

def isOk {ε α : Type} : Except ε α → Bool
  | Except.ok _ => true
  | Except.error _ => false

/-- With exactly one connected stream the resolution picks that stream,
whatever the argument. -/
theorem resolveStreamName_singleton (s : String × StreamData)
    (stream_name : Option String) :
    resolveStreamName [s] stream_name = Except.ok s.1 := by
  cases stream_name <;> rfl

/-- With two or more connected streams and no argument, resolution fails. -/
theorem resolveStreamName_multi_none (a b : String × StreamData)
    (rest : List (String × StreamData)) :
    resolveStreamName (a :: b :: rest) none = Except.error "ValueError" := rfl

/-- C6: with exactly one connected stream, `get_window` and `get_buffer`
succeed with `stream_name` omitted; with two or more connected streams and
`stream_name` omitted, both fail with `ValueError` without returning
data. -/
theorem receiver_c6_implicit_name (st : RcvState)
    (hall : ∀ p ∈ st.streams, (dictLookup st.threads p.1).isSome = true) :
    (st.streams.length = 1 →
      isOk (get_window st none) = true ∧ isOk (get_buffer st none) = true) ∧
    (2 ≤ st.streams.length →
      get_window st none = Except.error "ValueError" ∧
      get_buffer st none = Except.error "ValueError") := by
  constructor
  · intro h1
    obtain ⟨s, hs⟩ : ∃ s, st.streams = [s] := by
      cases hst : st.streams with
      | nil => rw [hst] at h1; cases h1
      | cons a rest =>
        cases rest with
        | nil => exact ⟨a, rfl⟩
        | cons b r2 => rw [hst] at h1; simp at h1
    have hth : (dictLookup st.threads s.1).isSome = true :=
      hall s (by rw [hs]; exact List.mem_singleton.mpr rfl)
    cases hslot : dictLookup st.threads s.1 with
    | none => rw [hslot] at hth; cases hth
    | some slot =>
      constructor
      · simp only [get_window, hs, resolveStreamName_singleton, dictLookup,
          if_pos rfl, hslot]
        cases slot with
        | pyNone => rfl
        | thread id alive =>
          by_cases hts : 0 < (takeLastPy s.2.winsize s.2.bufTimestamps).length
          · simp [hts, isOk]
          · simp [hts, isOk]
      · simp only [get_buffer, hs, resolveStreamName_singleton, dictLookup,
          if_pos rfl, hslot]
        cases slot with
        | pyNone => rfl
        | thread id alive =>
          by_cases hts : 0 < s.2.bufTimestamps.length
          · simp [hts, isOk]
          · simp [hts, isOk]
  · intro h2
    obtain ⟨a, b, rest, hst⟩ : ∃ a b rest, st.streams = a :: b :: rest := by
      cases hst : st.streams with
      | nil => rw [hst] at h2; simp at h2
      | cons a r =>
        cases r with
        | nil => rw [hst] at h2; simp at h2
        | cons b r2 => exact ⟨a, b, r2, rfl⟩
    constructor
    · simp only [get_window, hst, resolveStreamName_multi_none]
    · simp only [get_buffer, hst, resolveStreamName_multi_none]

theorem receiver_c6_implicit_name_witness :
    ((⟨[("AMP1", ⟨["Fz"], [], [], 1⟩), ("AMP2", ⟨["Cz"], [], [], 1⟩)],
        [("AMP1", WorkerSlot.pyNone), ("AMP2", WorkerSlot.pyNone)]⟩ :
          RcvState).streams.length = 1 →
      isOk (get_window ⟨[("AMP1", ⟨["Fz"], [], [], 1⟩),
          ("AMP2", ⟨["Cz"], [], [], 1⟩)],
        [("AMP1", WorkerSlot.pyNone), ("AMP2", WorkerSlot.pyNone)]⟩ none)
        = true ∧
      isOk (get_buffer ⟨[("AMP1", ⟨["Fz"], [], [], 1⟩),
          ("AMP2", ⟨["Cz"], [], [], 1⟩)],
        [("AMP1", WorkerSlot.pyNone), ("AMP2", WorkerSlot.pyNone)]⟩ none)
        = true) ∧
    (2 ≤ (⟨[("AMP1", ⟨["Fz"], [], [], 1⟩), ("AMP2", ⟨["Cz"], [], [], 1⟩)],
        [("AMP1", WorkerSlot.pyNone), ("AMP2", WorkerSlot.pyNone)]⟩ :
          RcvState).streams.length →
      get_window ⟨[("AMP1", ⟨["Fz"], [], [], 1⟩),
          ("AMP2", ⟨["Cz"], [], [], 1⟩)],
        [("AMP1", WorkerSlot.pyNone), ("AMP2", WorkerSlot.pyNone)]⟩ none
        = Except.error "ValueError" ∧
      get_buffer ⟨[("AMP1", ⟨["Fz"], [], [], 1⟩),
          ("AMP2", ⟨["Cz"], [], [], 1⟩)],
        [("AMP1", WorkerSlot.pyNone), ("AMP2", WorkerSlot.pyNone)]⟩ none
        = Except.error "ValueError") :=
  receiver_c6_implicit_name
    ⟨[("AMP1", ⟨["Fz"], [], [], 1⟩), ("AMP2", ⟨["Cz"], [], [], 1⟩)],
      [("AMP1", WorkerSlot.pyNone), ("AMP2", WorkerSlot.pyNone)]⟩
    (by decide)

/-- C7: if `acquire()` was never called for a connected stream (its
worker-thread slot is still `None`), `get_window` on that stream returns
the empty result — a 0-row array with as many columns as the stream has
channels, and an empty timestamp array — together with the warning, and
does not raise. -/
theorem receiver_c7_empty_before_acquire (st : RcvState) (name : String)
    (sd : StreamData)
    (hres : resolveStreamName st.streams (some name) = Except.ok name)
    (hsd : dictLookup st.streams name = some sd)
    (hth : dictLookup st.threads name = some WorkerSlot.pyNone) :
    get_window st (some name)
      = Except.ok (PullOutput.emptyResult sd.chList.length, true) := by
  simp only [get_window, hres, hsd, hth]

theorem receiver_c7_empty_before_acquire_witness :
    get_window ⟨[("AMP1", ⟨["Fz", "Cz"], [], [], 1⟩)],
        [("AMP1", WorkerSlot.pyNone)]⟩ (some "AMP1")
      = Except.ok (PullOutput.emptyResult 2, true) :=
  receiver_c7_empty_before_acquire
    ⟨[("AMP1", ⟨["Fz", "Cz"], [], [], 1⟩)], [("AMP1", WorkerSlot.pyNone)]⟩
    "AMP1" ⟨["Fz", "Cz"], [], [], 1⟩ rfl rfl rfl

/-- A one-stream engine whose worker slot holds a finished thread. -/
def stC9 : RcvState :=
  ⟨[("AMP1", ⟨["Fz"], [], [], 1⟩)], [("AMP1", WorkerSlot.thread 0 false)]⟩

/-- C9 counterexample: `disconnect_stream` deletes the stream's entry from
the stream map (and closes the inlet) but never touches
`self._acquisition_threads`: after the call the worker map still contains
the entry for the disconnected stream, contradicting the claim that
neither map contains an entry for that stream name. -/
theorem receiver_c9_counterexample :
    disconnect_stream stC9 none =
      Except.ok (⟨[], [("AMP1", WorkerSlot.thread 0 false)]⟩, true) ∧
    dictLookup
        (⟨[], [("AMP1", WorkerSlot.thread 0 false)]⟩ : RcvState).threads
        "AMP1"
      = some (WorkerSlot.thread 0 false) :=
  ⟨rfl, rfl⟩

/-- C9 (amended): for every connected stream with a resolvable name,
`disconnect_stream` closes the transport inlet and removes that stream's
buffer entry from the stream map, so the stream map no longer contains the
name; the worker map is left untouched — its entry for the stream (if any)
remains. -/
theorem receiver_c9_amended (st : RcvState) (stream_name : Option String)
    (name : String) (sd : StreamData)
    (hkeys : (st.streams.map (fun p => p.1)).Nodup)
    (hres : resolveStreamName st.streams stream_name = Except.ok name)
    (hsd : dictLookup st.streams name = some sd) :
    disconnect_stream st stream_name =
      Except.ok (⟨dictRemove st.streams name, st.threads⟩, true) ∧
    dictLookup (dictRemove st.streams name) name = none := by
  refine ⟨?_, dictLookup_remove_self st.streams name hkeys⟩
  simp only [disconnect_stream, hres, hsd]

theorem receiver_c9_amended_witness :
    disconnect_stream stC9 none =
      Except.ok (⟨dictRemove stC9.streams "AMP1", stC9.threads⟩, true) ∧
    dictLookup (dictRemove stC9.streams "AMP1") "AMP1" = none :=
  receiver_c9_amended stC9 none "AMP1" ⟨["Fz"], [], [], 1⟩
    (by decide) rfl rfl

/-- C10: when exactly one stream is connected, `get_window`, `get_buffer`,
`disconnect_stream` and `reset_buffer` unconditionally replace any
caller-supplied `stream_name` with the sole connected stream's name: the
resolution yields the sole stream for every argument, and each operation
behaves identically to the call with the name omitted. -/
theorem receiver_c10_sole_stream_overrides (st : RcvState)
    (s : String × StreamData) (hs : st.streams = [s])
    (stream_name : Option String) :
    resolveStreamName st.streams stream_name = Except.ok s.1 ∧
    get_window st stream_name = get_window st none ∧
    get_buffer st stream_name = get_buffer st none ∧
    disconnect_stream st stream_name = disconnect_stream st none ∧
    reset_buffer st stream_name = reset_buffer st none := by
  have h1 : resolveStreamName st.streams stream_name = Except.ok s.1 := by
    rw [hs]; exact resolveStreamName_singleton s stream_name
  have h2 : resolveStreamName st.streams none = Except.ok s.1 := by
    rw [hs]; exact resolveStreamName_singleton s none
  refine ⟨h1, ?_, ?_, ?_, ?_⟩
  · simp only [get_window, h1, h2]
  · simp only [get_buffer, h1, h2]
  · simp only [disconnect_stream, h1, h2]
  · simp only [reset_buffer, h1, h2]

theorem receiver_c10_sole_stream_overrides_witness :
    resolveStreamName
        (⟨[("AMP1", ⟨["Fz"], [], [], 1⟩)], [("AMP1", WorkerSlot.pyNone)]⟩ :
          RcvState).streams (some "Bogus")
      = Except.ok "AMP1" ∧
    get_window ⟨[("AMP1", ⟨["Fz"], [], [], 1⟩)],
        [("AMP1", WorkerSlot.pyNone)]⟩ (some "Bogus")
      = get_window ⟨[("AMP1", ⟨["Fz"], [], [], 1⟩)],
        [("AMP1", WorkerSlot.pyNone)]⟩ none ∧
    get_buffer ⟨[("AMP1", ⟨["Fz"], [], [], 1⟩)],
        [("AMP1", WorkerSlot.pyNone)]⟩ (some "Bogus")
      = get_buffer ⟨[("AMP1", ⟨["Fz"], [], [], 1⟩)],
        [("AMP1", WorkerSlot.pyNone)]⟩ none ∧
    disconnect_stream ⟨[("AMP1", ⟨["Fz"], [], [], 1⟩)],
        [("AMP1", WorkerSlot.pyNone)]⟩ (some "Bogus")
      = disconnect_stream ⟨[("AMP1", ⟨["Fz"], [], [], 1⟩)],
        [("AMP1", WorkerSlot.pyNone)]⟩ none ∧
    reset_buffer ⟨[("AMP1", ⟨["Fz"], [], [], 1⟩)],
        [("AMP1", WorkerSlot.pyNone)]⟩ (some "Bogus")
      = reset_buffer ⟨[("AMP1", ⟨["Fz"], [], [], 1⟩)],
        [("AMP1", WorkerSlot.pyNone)]⟩ none :=
  receiver_c10_sole_stream_overrides
    ⟨[("AMP1", ⟨["Fz"], [], [], 1⟩)], [("AMP1", WorkerSlot.pyNone)]⟩
    ("AMP1", ⟨["Fz"], [], [], 1⟩) rfl (some "Bogus")

end ReadAPI

section IsConnected

/-- The argument tuple of `StreamReceiver.connect`. -/
structure ConnectArgs where
  bufsize : ℚ
  winsize : ℚ
  streamName : NameFilter
  eegOnly : Bool
deriving DecidableEq

/-- The defaults of `connect`'s signature (line 35):
`bufsize=1, winsize=1, stream_name=None, eeg_only=False`. -/
def defaultConnectArgs : ConnectArgs := ⟨1, 1, NameFilter.noConstraint, false⟩

/-- The construction-time arguments of the engine (`__init__`, lines 31-33,
forwards them to the first `connect`); the object keeps no copy of them. -/
structure ReceiverCtor where
  origArgs : ConnectArgs
deriving DecidableEq

/-- The arguments the `is_connected` retry passes to `connect`: line 285
reads `self.connect()`, i.e. the signature defaults; the construction-time
arguments play no role. -/
def isConnectedRetryArgs (eng : ReceiverCtor) : ConnectArgs :=
  defaultConnectArgs

/-- The `while not self._is_connected` loop of the `is_connected` property
(lines 277-288), fuelled: each iteration logs, calls `connect` with
`isConnectedRetryArgs` (`connectOutcome args k` says whether the k-th retry
establishes a connection) and sleeps 1 s; on exit the property returns
`self._is_connected`. -/
def isConnectedLoop (eng : ReceiverCtor)
    (connectOutcome : ConnectArgs → Nat → Bool) :
    Nat → Nat → Bool → Option Bool
  | 0, _, _ => none
  | fuel + 1, k, conn =>
    if conn then some conn
    else isConnectedLoop eng connectOutcome fuel (k + 1)
      (connectOutcome (isConnectedRetryArgs eng) k)

theorem isConnectedLoop_returns_true (eng : ReceiverCtor)
    (connectOutcome : ConnectArgs → Nat → Bool) :
    ∀ (fuel k : Nat) (conn b : Bool),
    isConnectedLoop eng connectOutcome fuel k conn = some b → b = true := by
  intro fuel
  induction fuel with
  | zero => intro k conn b h; exact Option.noConfusion h
  | succ fuel ih =>
    intro k conn b h
    cases conn with
    | true =>
      have h2 : some true = some b := h
      cases h2
      rfl
    | false =>
      have h2 : isConnectedLoop eng connectOutcome fuel (k + 1)
          (connectOutcome (isConnectedRetryArgs eng) k) = some b := h
      exact ih (k + 1) _ b h2

/-- C8 counterexample: an engine constructed with
`bufsize=2, winsize=5, stream_name='AMP1', eeg_only=True` retries with
arguments different from those construction-time parameters — the retry
uses the signature defaults. -/
theorem receiver_c8_counterexample :
    isConnectedRetryArgs ⟨⟨2, 5, NameFilter.single "AMP1", true⟩⟩ ≠
      (⟨⟨2, 5, NameFilter.single "AMP1", true⟩⟩ : ReceiverCtor).origArgs := by
  intro h
  have h2 : defaultConnectArgs = ⟨2, 5, NameFilter.single "AMP1", true⟩ := h
  have h3 : (1 : ℚ) = 2 := congrArg ConnectArgs.bufsize h2
  norm_num at h3

/-- C8 (amended): whenever the engine believes itself disconnected, reading
`is_connected` retries `connect()` with the signature defaults
(`bufsize=1, winsize=1, stream_name=None, eeg_only=False`) — not the
parameters the engine was originally connected with, which are not stored —
in a warn/retry/sleep-1s loop until a source is found, and whenever it
returns, it returns True. -/
theorem receiver_c8_amended (eng : ReceiverCtor)
    (connectOutcome : ConnectArgs → Nat → Bool) (fuel k : Nat) (b : Bool)
    (h : isConnectedLoop eng connectOutcome fuel k false = some b) :
    isConnectedRetryArgs eng = defaultConnectArgs ∧ b = true :=
  ⟨rfl, isConnectedLoop_returns_true eng connectOutcome fuel k false b h⟩

theorem receiver_c8_amended_witness :
    isConnectedRetryArgs ⟨⟨2, 5, NameFilter.single "AMP1", true⟩⟩
      = defaultConnectArgs ∧ true = true :=
  receiver_c8_amended ⟨⟨2, 5, NameFilter.single "AMP1", true⟩⟩
    (fun _ _ => true) 2 0 true rfl

end IsConnected

end NeuroDecode
